import Mathlib

/-!
# Verification of the dual-probe thermometer display logic

Shallow embedding of the deterministic computation layer of the FPGA
thermometer firmware (`main_sampler_test.cpp`, with the peripheral mocks of
`final_proj_function_tester.cpp`): switch decoding (`getTempLimit`), LED limit
mirroring (`dispTempLimit`), RGB indicator driving (`setRGB`), seven-segment
temperature rendering (`dispTemp`) and decimal-point placement (`dispDp`).

`float` values are embedded as rationals together with an explicit rounding
function `fl` that rounds an exact rational result to the binary32 value grid
(24-bit significand, round to nearest, ties to even).  The exponent range is
left unbounded (no overflow or subnormal flushing), which coincides with IEEE
binary32 on the whole temperature range exercised here.  C `int` arithmetic is
embedded as `ℤ` with `Int.tdiv`/`Int.tmod` (truncated division, the C
semantics); C unsigned words are embedded as `ℕ` with the core bitwise
operations.  Peripheral cores are embedded as explicit state records, and the
member functions as state transformers, mirroring the mock structs of the
repository's test harness.
-/

/-- C-style truncation toward zero of a rational, as in a C `(int)` cast of a
float value. -/
def trunc (q : ℚ) : ℤ := if q < 0 then ⌈q⌉ else ⌊q⌋

/-- Round a rational to the nearest integer, ties to even (the IEEE-754 default
rounding direction applied to significands). -/
def rne (q : ℚ) : ℤ :=
  if q - ⌊q⌋ < 1/2 then ⌊q⌋
  else if 1/2 < q - ⌊q⌋ then ⌊q⌋ + 1
  else if ⌊q⌋ % 2 = 0 then ⌊q⌋ else ⌊q⌋ + 1

/-- Fuel-bounded base-2 integer logarithm for rationals at least 1. -/
def ilog2Up : ℕ → ℚ → ℤ
  | 0, _ => 0
  | fuel+1, q => if q < 2 then 0 else ilog2Up fuel (q/2) + 1

/-- Fuel-bounded base-2 integer logarithm for positive rationals below 1. -/
def ilog2Down : ℕ → ℚ → ℤ
  | 0, _ => 0
  | fuel+1, q => if 1 ≤ q then 0 else ilog2Down fuel (2*q) - 1

/-- Base-2 integer logarithm of a positive rational: the largest `e` with
`2^e ≤ q`, correct for `q` between `2^(-299)` and `2^300`. -/
def ilog2 (q : ℚ) : ℤ := if 1 ≤ q then ilog2Up 300 q else ilog2Down 300 q

/-- Rounding of a (nonnegative) rational to the float grid with a 24-bit
significand: scale into `[2^23, 2^24)`, round to nearest integer with ties to
even, scale back. -/
def flPos (q : ℚ) : ℚ :=
  if q ≤ 0 then 0
  else (rne (q * 2 ^ (23 - ilog2 q)) : ℚ) * 2 ^ (ilog2 q - 23)

/-- Rounding of an exact rational to the binary32 value grid (round to nearest,
ties to even).  The exponent range is unbounded, so overflow and subnormal
flushing are not modelled; every value arising in this development lies well
inside the binary32 normal range, where this agrees with IEEE binary32. -/
def fl (q : ℚ) : ℚ := if q < 0 then -flPos (-q) else flPos q

/-- Single-precision multiplication: the exact product, rounded. -/
def fmul (a b : ℚ) : ℚ := fl (a * b)

/-- Single-precision addition: the exact sum, rounded. -/
def fadd (a b : ℚ) : ℚ := fl (a + b)

/-! ## Evaluation lemmas for the float model -/

theorem rne_eq_down {q : ℚ} {k : ℤ} (h1 : (k:ℚ) ≤ q) (h2 : q - k < 1/2) :
    rne q = k := by
  have hf : ⌊q⌋ = k := by
    rw [Int.floor_eq_iff]
    constructor
    · exact h1
    · push_cast
      linarith
  rw [rne, hf, if_pos (by push_cast; linarith)]

theorem rne_eq_up {q : ℚ} {k : ℤ} (h1 : 1/2 < q - k) (h2 : q < k + 1) :
    rne q = k + 1 := by
  have hf : ⌊q⌋ = k := by
    rw [Int.floor_eq_iff]
    constructor
    · linarith
    · push_cast
      linarith
  rw [rne, hf, if_neg (by push_cast; linarith), if_pos (by push_cast; linarith)]

theorem rne_eq_tie_odd {q : ℚ} {k : ℤ} (h1 : q - k = 1/2) (h2 : k % 2 = 1) :
    rne q = k + 1 := by
  have hf : ⌊q⌋ = k := by
    rw [Int.floor_eq_iff]
    constructor
    · linarith
    · push_cast
      linarith
  rw [rne, hf, if_neg (by push_cast; linarith), if_neg (by push_cast; linarith),
    if_neg (by omega)]

theorem rne_intCast (k : ℤ) : rne (k : ℚ) = k := by
  apply rne_eq_down le_rfl
  norm_num

theorem rne_nonneg {q : ℚ} (h : 0 ≤ q) : 0 ≤ rne q := by
  have hf : 0 ≤ ⌊q⌋ := Int.floor_nonneg.2 h
  rw [rne]
  split
  · exact hf
  split
  · omega
  split
  · exact hf
  · omega

theorem trunc_eq_of_nonneg {q : ℚ} {k : ℤ} (h0 : 0 ≤ q) (h1 : (k:ℚ) ≤ q)
    (h2 : q < k + 1) : trunc q = k := by
  rw [trunc, if_neg (by linarith)]
  rw [Int.floor_eq_iff]
  exact ⟨h1, by push_cast; linarith⟩

theorem trunc_nonneg {q : ℚ} (h : 0 ≤ q) : 0 ≤ trunc q := by
  rw [trunc, if_neg (by linarith)]
  exact Int.floor_nonneg.2 h

theorem ilog2Up_eq : ∀ (fuel : ℕ) (q : ℚ) (e : ℕ), e < fuel →
    (2:ℚ)^e ≤ q → q < (2:ℚ)^(e+1) → ilog2Up fuel q = e := by
  intro fuel
  induction fuel with
  | zero => intro q e he _ _; omega
  | succ f ih =>
    intro q e he h1 h2
    rw [ilog2Up]
    by_cases hq2 : q < 2
    · rw [if_pos hq2]
      rcases Nat.eq_zero_or_pos e with he0 | he1
      · simp [he0]
      · exfalso
        have : (2:ℚ)^1 ≤ (2:ℚ)^e := pow_le_pow_right (by norm_num) he1
        simp at this
        linarith
    · rw [if_neg hq2]
      push_neg at hq2
      rcases Nat.eq_zero_or_pos e with he0 | he1
      · exfalso
        rw [he0] at h2
        norm_num at h2
        linarith
      · obtain ⟨e', rfl⟩ : ∃ e', e = e' + 1 := ⟨e - 1, by omega⟩
        have step : ilog2Up f (q/2) = e' := by
          apply ih
          · omega
          · rw [le_div_iff (by norm_num : (0:ℚ) < 2)]
            calc (2:ℚ)^e' * 2 = 2^(e'+1) := by ring
            _ ≤ q := h1
          · rw [div_lt_iff (by norm_num : (0:ℚ) < 2)]
            calc q < (2:ℚ)^(e'+1+1) := h2
            _ = 2^(e'+1) * 2 := by ring
        rw [step]
        push_cast
        ring

theorem ilog2Down_eq : ∀ (fuel : ℕ) (q : ℚ) (e : ℕ), e + 1 < fuel →
    (1:ℚ) ≤ q * 2^(e+1) → q * 2^(e+1) < 2 → ilog2Down fuel q = -(e+1) := by
  intro fuel
  induction fuel with
  | zero => intro q e he _ _; omega
  | succ f ih =>
    intro q e he h1 h2
    have hq1 : ¬ (1 ≤ q) := by
      intro hq
      have : (2:ℚ) ≤ q * 2^(e+1) := by
        calc (2:ℚ) = 1 * 2^1 := by norm_num
        _ ≤ q * 2^(e+1) := by
            apply mul_le_mul hq (pow_le_pow_right (by norm_num) (by omega))
              (by positivity) (by linarith)
      linarith
    rw [ilog2Down, if_neg hq1]
    rcases Nat.eq_zero_or_pos e with he0 | he1
    · subst he0
      have hf : ∃ f', f = f' + 1 := ⟨f - 1, by omega⟩
      obtain ⟨f', rfl⟩ := hf
      have h1' : (1:ℚ) ≤ 2 * q := by
        have := h1
        norm_num at this
        linarith
      rw [ilog2Down, if_pos h1']
      norm_num
    · obtain ⟨e', rfl⟩ : ∃ e', e = e' + 1 := ⟨e - 1, by omega⟩
      have step : ilog2Down f (2*q) = -(e'+1) := by
        apply ih
        · omega
        · calc (1:ℚ) ≤ q * 2^(e'+1+1) := h1
          _ = 2*q * 2^(e'+1) := by ring
        · calc 2*q * 2^(e'+1) = q * 2^(e'+1+1) := by ring
          _ < 2 := h2
      rw [step]
      push_cast
      ring

theorem ilog2_eq_nat {q : ℚ} (e : ℕ) (he : e < 300) (h1 : (2:ℚ)^e ≤ q)
    (h2 : q < (2:ℚ)^(e+1)) : ilog2 q = e := by
  have hq1 : (1:ℚ) ≤ q := le_trans (one_le_pow₀ (by norm_num)) h1
  rw [ilog2, if_pos hq1]
  exact ilog2Up_eq 300 q e he h1 h2

theorem ilog2_eq_neg {q : ℚ} (e : ℕ) (he : e + 1 < 300) (h1 : (1:ℚ) ≤ q * 2^(e+1))
    (h2 : q * 2^(e+1) < 2) : ilog2 q = -(e+1) := by
  have hq1 : ¬ ((1:ℚ) ≤ q) := by
    intro hq
    have h2e : (2:ℚ) ≤ q * 2^(e+1) := by
      calc (2:ℚ) = 1 * 2^1 := by norm_num
      _ ≤ q * 2^(e+1) := by
          apply mul_le_mul hq (pow_le_pow_right (by norm_num) (by omega))
            (by positivity) (by linarith)
    linarith
  rw [ilog2, if_neg hq1]
  exact ilog2Down_eq 300 q e he h1 h2

/-- Evaluation rule for `flPos` for values with (nonnegative) exponent `e ≤ 23`:
once `ilog2 q = e` and the rounded scaled significand `m` are supplied, the
result is `m / 2^(23-e)`. -/
theorem flPos_eq_small {q : ℚ} (e : ℕ) (m : ℤ) (he : e ≤ 23)
    (h1 : (2:ℚ)^e ≤ q) (h2 : q < (2:ℚ)^(e+1))
    (hm : rne (q * 2^(23 - e)) = m) : flPos q = m / 2^(23 - e) := by
  have hq0 : 0 < q := lt_of_lt_of_le (by positivity) h1
  have hlog : ilog2 q = e := ilog2_eq_nat e (by omega) h1 h2
  rw [flPos, if_neg (by linarith), hlog]
  have hcast1 : (23 - (e:ℤ)) = ((23 - e : ℕ) : ℤ) := by omega
  have hz1 : (2:ℚ) ^ (23 - (e:ℤ)) = 2 ^ (23 - e) := by
    rw [hcast1, zpow_natCast]
  have hz2 : (2:ℚ) ^ ((e:ℤ) - 23) = 1 / 2 ^ (23 - e) := by
    have : ((e:ℤ) - 23) = -((23 - e : ℕ) : ℤ) := by omega
    rw [this, zpow_neg, zpow_natCast]
    norm_num
  rw [hz1, hz2, hm]
  ring

/-- Evaluation rule for `flPos` at exponent `-1` (values in `[1/2, 1)`). -/
theorem flPos_eq_negone {q : ℚ} (m : ℤ)
    (h1 : (1:ℚ) ≤ q * 2) (h2 : q * 2 < 2)
    (hm : rne (q * 2^24) = m) : flPos q = m / 2^24 := by
  have hq0 : 0 < q := by linarith
  have hlog : ilog2 q = -1 := by
    have := ilog2_eq_neg (q := q) 0 (by norm_num) (by norm_num; linarith)
      (by norm_num; linarith)
    simpa using this
  rw [flPos, if_neg (by linarith), hlog]
  have hz1 : (2:ℚ) ^ (23 - (-1:ℤ)) = 2 ^ 24 := by norm_num
  have hz2 : (2:ℚ) ^ ((-1:ℤ) - 23) = 1 / 2 ^ 24 := by
    rw [show ((-1:ℤ) - 23) = -(24:ℤ) by norm_num]
    rw [show ((24:ℤ)) = ((24:ℕ):ℤ) by norm_num, zpow_neg, zpow_natCast]
    norm_num
  rw [hz1, hz2, hm]
  ring

theorem fl_of_nonneg {q : ℚ} (h : 0 ≤ q) : fl q = flPos q := by
  rw [fl, if_neg (by linarith)]

theorem fl_zero : fl 0 = 0 := by
  rw [fl_of_nonneg le_rfl, flPos, if_pos le_rfl]

theorem fl_nonneg {q : ℚ} (h : 0 ≤ q) : 0 ≤ fl q := by
  rw [fl_of_nonneg h, flPos]
  split
  · exact le_rfl
  · have hq : 0 < q := by
      rcases lt_or_eq_of_le h with h' | h'
      · exact h'
      · simp_all
    apply mul_nonneg
    · exact_mod_cast rne_nonneg (by positivity)
    · positivity

theorem fmul_nonneg {a b : ℚ} (ha : 0 ≤ a) (hb : 0 ≤ b) : 0 ≤ fmul a b :=
  fl_nonneg (mul_nonneg ha hb)

theorem fadd_nonneg {a b : ℚ} (ha : 0 ≤ a) (hb : 0 ≤ b) : 0 ≤ fadd a b :=
  fl_nonneg (add_nonneg ha hb)

theorem fl_half : fl (1/2) = 1/2 := by
  rw [fl_of_nonneg (by norm_num)]
  rw [flPos_eq_negone (2^23) (by norm_num) (by norm_num) ?_]
  · norm_num
  · rw [show ((1:ℚ)/2) * 2^24 = ((2^23 : ℤ) : ℚ) by norm_num]
    exact rne_intCast _

/-! ## Concrete binary32 evaluations used by the claims -/

/-- The binary32 value of the literal `9.76f`. -/
theorem fl_976 : fl (244/25) = 5117051/524288 := by
  rw [fl_of_nonneg (by norm_num)]
  rw [flPos_eq_small 3 10234102 (by norm_num) (by norm_num) (by norm_num) ?_]
  · norm_num
  · rw [show (10234102 : ℤ) = 10234101 + 1 by norm_num]
    exact rne_eq_up (by norm_num) (by norm_num)

/-- The binary32 value of the literal `99.95f`. -/
theorem fl_995 : fl (1999/20) = 6550323/65536 := by
  rw [fl_of_nonneg (by norm_num)]
  rw [flPos_eq_small 6 13100646 (by norm_num) (by norm_num) (by norm_num) ?_]
  · norm_num
  · exact rne_eq_down (by norm_num) (by norm_num)

/-- `99.95f * 10.0f` rounds (tie to even, upward) to exactly `999.5`. -/
theorem fmul_995_ten : fmul (6550323/65536) 10 = 1999/2 := by
  rw [fmul, show (6550323/65536 : ℚ) * 10 = 32751615/32768 by norm_num,
    fl_of_nonneg (by norm_num)]
  rw [flPos_eq_small 9 16375808 (by norm_num) (by norm_num) (by norm_num) ?_]
  · norm_num
  · rw [show (16375808 : ℤ) = 16375807 + 1 by norm_num]
    exact rne_eq_tie_odd (by norm_num) (by norm_num)

/-- `999.5f + 0.5f = 1000.0f` exactly. -/
theorem fadd_9995_half : fadd (1999/2) (1/2) = 1000 := by
  rw [fadd, show (1999/2 : ℚ) + 1/2 = ((16384000 : ℤ) : ℚ) / 2^14 by norm_num,
    fl_of_nonneg (by norm_num)]
  rw [flPos_eq_small 9 16384000 (by norm_num) (by norm_num) (by norm_num) ?_]
  · norm_num
  · rw [show ((16384000 : ℤ) : ℚ) / 2^14 * 2^(23-9) = ((16384000 : ℤ) : ℚ) by norm_num]
    exact rne_intCast _

/-- `9.76f * 10.0f` rounds (tie to even, upward) to `97.60000610...`. -/
theorem fmul_976_ten : fmul (5117051/524288) 10 = 3198157/32768 := by
  rw [fmul, show (5117051/524288 : ℚ) * 10 = 25585255/262144 by norm_num,
    fl_of_nonneg (by norm_num)]
  rw [flPos_eq_small 6 12792628 (by norm_num) (by norm_num) (by norm_num) ?_]
  · norm_num
  · rw [show (12792628 : ℤ) = 12792627 + 1 by norm_num]
    exact rne_eq_tie_odd (by norm_num) (by norm_num)

/-- Adding `0.5f` to `97.60000610...f` is exact (`98.10000610...`). -/
theorem fadd_976_half : fadd (3198157/32768) (1/2) = 3214541/32768 := by
  rw [fadd, show (3198157/32768 : ℚ) + 1/2 = ((12858164 : ℤ) : ℚ) / 2^17 by norm_num,
    fl_of_nonneg (by norm_num)]
  rw [flPos_eq_small 6 12858164 (by norm_num) (by norm_num) (by norm_num) ?_]
  · norm_num
  · rw [show ((12858164 : ℤ) : ℚ) / 2^17 * 2^(23-6) = ((12858164 : ℤ) : ℚ) by norm_num]
    exact rne_intCast _

/-- `101.0f * 10.0f = 1010.0f` exactly. -/
theorem fmul_101_ten : fmul 101 10 = 1010 := by
  rw [fmul, show (101 : ℚ) * 10 = 1010 by norm_num, fl_of_nonneg (by norm_num)]
  rw [flPos_eq_small 9 16547840 (by norm_num) (by norm_num) (by norm_num) ?_]
  · norm_num
  · rw [show (1010 : ℚ) * 2^(23-9) = ((16547840 : ℤ) : ℚ) by norm_num]
    exact rne_intCast _

/-- `1010.0f + 0.5f = 1010.5f` exactly. -/
theorem fadd_1010_half : fadd 1010 (1/2) = 2021/2 := by
  rw [fadd, show (1010 : ℚ) + 1/2 = 2021/2 by norm_num, fl_of_nonneg (by norm_num)]
  rw [flPos_eq_small 9 16556032 (by norm_num) (by norm_num) (by norm_num) ?_]
  · norm_num
  · rw [show (2021/2 : ℚ) * 2^(23-9) = ((16556032 : ℤ) : ℚ) by norm_num]
    exact rne_intCast _

/-- `101.0f + 0.5f = 101.5f` exactly. -/
theorem fadd_101_half : fadd 101 (1/2) = 203/2 := by
  rw [fadd, show (101 : ℚ) + 1/2 = 203/2 by norm_num, fl_of_nonneg (by norm_num)]
  rw [flPos_eq_small 6 13303808 (by norm_num) (by norm_num) (by norm_num) ?_]
  · norm_num
  · rw [show (203/2 : ℚ) * 2^(23-6) = ((13303808 : ℤ) : ℚ) by norm_num]
    exact rne_intCast _

theorem fmul_zero_ten : fmul 0 10 = 0 := by
  rw [fmul, zero_mul, fl_zero]

theorem fadd_zero_half : fadd 0 (1/2) = 1/2 := by
  rw [fadd, zero_add, fl_half]

/-! ## Peripheral cores

State records mirroring the MMIO mock structs of the test harness
(`final_proj_function_tester.cpp`).  Cell and channel indices are `ℤ` (C
`int`); a write outside the valid range `[0, 8)` is silently ignored, exactly
as in the mocks. -/

/-- Digital input port (switch bank): holds the raw switch word. -/
structure GpiCore where
  sw : ℕ

/-- `GpiCore::read()`: returns the raw switch word.  The C version returns it
through `int`; for any 32-bit word the subsequent 7-bit masking yields the same
value either way, so the word is kept as `ℕ`. -/
def GpiCore.read (sw_p : GpiCore) : ℕ := sw_p.sw

/-- Digital output port (LED bank). -/
structure GpoCore where
  ledOutput : ℕ

/-- `GpoCore::write(v)`. -/
def GpoCore.write (led_p : GpoCore) (v : ℕ) : GpoCore := { ledOutput := v }

/-- PWM duty-cycle controller: eight channels of (double-valued) duty. -/
structure PwmCore where
  duty : ℤ → ℚ

/-- `PwmCore::set_duty(d, ch)`: writes channel `ch` if it is in `[0, 8)`. -/
def PwmCore.set_duty (pwm_p : PwmCore) (d : ℚ) (ch : ℤ) : PwmCore :=
  if 0 ≤ ch ∧ ch < 8 then
    { pwm_p with duty := fun i => if i = ch then d else pwm_p.duty i }
  else pwm_p

/-- Seven-segment display core: eight digit-pattern cells and a decimal-point
mask. -/
structure SsegCore where
  digit : ℤ → ℕ
  dp : ℕ

/-- `SsegCore::h2s(x)`: `(uint8_t)(x & 0xFF)`; a two's-complement `& 0xFF`
equals the Euclidean remainder modulo 256 for every `int`. -/
def SsegCore.h2s (_sseg_p : SsegCore) (x : ℤ) : ℕ := (x.emod 256).toNat

/-- `SsegCore::write_1ptn(ptn, pos)`: writes cell `pos` if it is in `[0, 8)`. -/
def SsegCore.write_1ptn (sseg_p : SsegCore) (ptn : ℕ) (pos : ℤ) : SsegCore :=
  if 0 ≤ pos ∧ pos < 8 then
    { sseg_p with digit := fun i => if i = pos then ptn else sseg_p.digit i }
  else sseg_p

/-- `SsegCore::set_dp(pt)`. -/
def SsegCore.set_dp (sseg_p : SsegCore) (pt : ℕ) : SsegCore :=
  { sseg_p with dp := pt }

/-! ## The program functions (translated from `main_sampler_test.cpp`) -/

/-- `getTempLimit`: reads either SW0-6 or SW8-14 based on `segsSel` and returns
the 7-bit limit value. -/
def getTempLimit (sw_p : GpiCore) (segsSel : ℤ) : ℕ :=
  let s := sw_p.read
  if segsSel = 1 then (s >>> 8) &&& 0x7f else s &&& 0x7f

/-- `dispTempLimit`: shifts the upper limit 8 bits left, combines it with the
lower limit and writes the result to the LEDs. -/
def dispTempLimit (led_p : GpoCore) (lowerLim upperLim : ℕ) : GpoCore :=
  let ledDisp := 0 ||| (lowerLim &&& 0x7f)
  let ledDisp := ledDisp ||| ((upperLim &&& 0x7f) <<< 8)
  led_p.write ledDisp

/-- `setRGB`: sets an RGB LED to red (`color = 1`) or green (`color = 0`);
`rgbPos` selects which RGB triple is driven.  The 3-iteration clearing loop of
the source is unrolled. -/
def setRGB (pwm_p : PwmCore) (color rgbPos : ℤ) : PwmCore :=
  let bright : ℚ := 30
  let duty := bright / 100
  if rgbPos = 1 then
    ((((pwm_p.set_duty 0 (0+3)).set_duty 0 (1+3)).set_duty 0 (2+3)).set_duty
      duty (color + 4))
  else
    ((((pwm_p.set_duty 0 (0+0)).set_duty 0 (1+0)).set_duty 0 (2+0)).set_duty
      duty (color + 1))

/-- The `posAdj` offset of `dispTemp`: left half (`segsSel = 1`) starts at cell
4, right half at cell 0. -/
def posAdjOf (segsSel : ℤ) : ℤ := if segsSel = 1 then 4 else 0

/-- The working temperature selected by `dispTemp`: `tmpF` in Fahrenheit mode
(`isFer = 1`), `tmpC` otherwise. -/
def selTemp (tmpC tmpF : ℚ) (isFer : ℤ) : ℚ := if isFer = 1 then tmpF else tmpC

/-- The negative clamp of `dispTemp`: `if (temp < 0.00f) temp = 0.00f`. -/
def clampTemp (temp : ℚ) : ℚ := if temp < 0 then 0 else temp

/-- `tempInt = (int)(temp * 10.00f + 0.50f)` of `dispTemp`, in single
precision. -/
def scaledTenths (temp : ℚ) : ℤ := trunc (fadd (fmul temp 10) (1/2))

/-- `whole` of `dispTemp`: `(int)(temp + 0.5f)` when `temp >= 100.00f`, else
`tempInt / 10` (C truncated division). -/
def wholeOf (temp : ℚ) : ℤ :=
  if 100 ≤ temp then trunc (fadd temp (1/2)) else (scaledTenths temp).tdiv 10

/-- `dispTemp`: renders the selected temperature on one four-cell half of the
seven-segment display and returns the `isHundred` overflow flag. -/
def dispTemp (sseg_p : SsegCore) (tmpC tmpF : ℚ) (isFer segsSel : ℤ) :
    SsegCore × Bool :=
  let BLANK : ℕ := 0xff
  let posAdj := posAdjOf segsSel
  let temp := clampTemp (selTemp tmpC tmpF isFer)
  let tempInt := scaledTenths temp
  let whole := wholeOf temp
  let hundreds := (whole.tdiv 100).tmod 10
  let tens := (whole.tdiv 10).tmod 10
  let ones := whole.tmod 10
  let tenths := tempInt.tmod 10
  let s1 :=
    if 100 ≤ whole then
      ((sseg_p.write_1ptn (sseg_p.h2s hundreds) (3+posAdj)).write_1ptn
        (sseg_p.h2s tens) (2+posAdj)).write_1ptn (sseg_p.h2s ones) (1+posAdj)
    else
      let sA :=
        if 10 ≤ whole then sseg_p.write_1ptn (sseg_p.h2s tens) (3+posAdj)
        else sseg_p.write_1ptn BLANK (3+posAdj)
      (sA.write_1ptn (sseg_p.h2s ones) (2+posAdj)).write_1ptn
        (sseg_p.h2s tenths) (1+posAdj)
  let s2 :=
    if isFer = 1 then s1.write_1ptn (s1.h2s 0x0F) (0+posAdj)
    else s1.write_1ptn (s1.h2s 0x0C) (0+posAdj)
  (s2, decide (100 ≤ whole))

/-- `dispDp`: places the decimal points according to the two overflow flags. -/
def dispDp (sseg_p : SsegCore) (intIsHundred extIsHundred : Bool) : SsegCore :=
  let dpPos : ℕ :=
    if intIsHundred && extIsHundred then (1 <<< 1) ||| (1 <<< 5)
    else if intIsHundred && !extIsHundred then (1 <<< 2) ||| (1 <<< 5)
    else if !intIsHundred && extIsHundred then (1 <<< 1) ||| (1 <<< 6)
    else (1 <<< 2) ||| (1 <<< 6)
  sseg_p.set_dp dpPos

/-- An all-blank display state (digits cleared to `0xFF`, decimal points
cleared), as left by `clearDisp`; used as a concrete test fixture. -/
def sseg0 : SsegCore := { digit := fun _ => 0xff, dp := 0 }

/-- A second concrete display state, with all cells zeroed. -/
def sseg1 : SsegCore := { digit := fun _ => 0, dp := 7 }

/-- A concrete PWM state with all duties zero. -/
def pwm0 : PwmCore := { duty := fun _ => 0 }

/-! ## Structural lemmas about `dispTemp` -/

theorem write_1ptn_digit (sseg_p : SsegCore) (ptn : ℕ) (pos idx : ℤ)
    (h1 : 0 ≤ pos) (h2 : pos < 8) :
    (sseg_p.write_1ptn ptn pos).digit idx =
      if idx = pos then ptn else sseg_p.digit idx := by
  rw [SsegCore.write_1ptn, if_pos ⟨h1, h2⟩]

theorem write_1ptn_digit_ite (sseg_p : SsegCore) (ptn : ℕ) (pos idx : ℤ) :
    (sseg_p.write_1ptn ptn pos).digit idx =
      if (0 ≤ pos ∧ pos < 8) ∧ idx = pos then ptn else sseg_p.digit idx := by
  rw [SsegCore.write_1ptn]
  by_cases hin : 0 ≤ pos ∧ pos < 8
  · rw [if_pos hin]
    by_cases hidx : idx = pos
    · rw [if_pos ⟨hin, hidx⟩]
      simp [hidx]
    · rw [if_neg (by tauto)]
      simp [hidx]
  · rw [if_neg hin, if_neg (by tauto)]

theorem write_1ptn_dp (sseg_p : SsegCore) (ptn : ℕ) (pos : ℤ) :
    (sseg_p.write_1ptn ptn pos).dp = sseg_p.dp := by
  rw [SsegCore.write_1ptn]
  split <;> rfl

/-- The value `dispTemp` writes at relative cell `k` (0..3) of its half:
cell 0 the unit glyph, cells 1-3 the digits selected by the overflow and
leading-zero tests. -/
def digitAt (tmpC tmpF : ℚ) (isFer k : ℤ) : ℕ :=
  let temp := clampTemp (selTemp tmpC tmpF isFer)
  let whole := wholeOf temp
  if k = 0 then
    (if isFer = 1 then (((0x0F:ℤ)).emod 256).toNat else (((0x0C:ℤ)).emod 256).toNat)
  else if 100 ≤ whole then
    (if k = 3 then (((whole.tdiv 100).tmod 10).emod 256).toNat
     else if k = 2 then (((whole.tdiv 10).tmod 10).emod 256).toNat
     else ((whole.tmod 10).emod 256).toNat)
  else
    (if k = 3 then
      (if 10 ≤ whole then (((whole.tdiv 10).tmod 10).emod 256).toNat else 0xff)
     else if k = 2 then ((whole.tmod 10).emod 256).toNat
     else (((scaledTenths temp).tmod 10).emod 256).toNat)

theorem posAdjOf_cases (segsSel : ℤ) : posAdjOf segsSel = 4 ∨ posAdjOf segsSel = 0 := by
  rw [posAdjOf]
  split
  · exact Or.inl rfl
  · exact Or.inr rfl

set_option maxHeartbeats 3200000 in
/-- Master digit lemma: `dispTemp` maps every cell of its own half through
`digitAt` and leaves every other cell of the display unchanged. -/
theorem dispTemp_digit (sseg_p : SsegCore) (tmpC tmpF : ℚ) (isFer segsSel idx : ℤ) :
    (dispTemp sseg_p tmpC tmpF isFer segsSel).1.digit idx =
      if posAdjOf segsSel ≤ idx ∧ idx < posAdjOf segsSel + 4 then
        digitAt tmpC tmpF isFer (idx - posAdjOf segsSel)
      else sseg_p.digit idx := by
  rcases posAdjOf_cases segsSel with hpa | hpa <;>
    by_cases h100 : 100 ≤ wholeOf (clampTemp (selTemp tmpC tmpF isFer)) <;>
    by_cases h10 : 10 ≤ wholeOf (clampTemp (selTemp tmpC tmpF isFer)) <;>
    by_cases hF : isFer = 1 <;>
    (try rw [hF] at h100 h10) <;>
    · simp only [dispTemp, digitAt, SsegCore.h2s, hpa, hF, h100, h10, if_true,
        if_false, if_pos, if_neg, not_false_iff, not_true]
      simp only [write_1ptn_digit_ite, h100, h10, if_true, if_false]
      split_ifs <;> first | rfl | omega

/-- `dispTemp` never touches the decimal-point mask. -/
theorem dispTemp_dp (sseg_p : SsegCore) (tmpC tmpF : ℚ) (isFer segsSel : ℤ) :
    (dispTemp sseg_p tmpC tmpF isFer segsSel).1.dp = sseg_p.dp := by
  simp only [dispTemp, apply_ite (fun st : SsegCore => st.dp), write_1ptn_dp,
    ite_self]

/-- The Boolean returned by `dispTemp` is the `whole >= 100` test. -/
theorem dispTemp_snd (sseg_p : SsegCore) (tmpC tmpF : ℚ) (isFer segsSel : ℤ) :
    (dispTemp sseg_p tmpC tmpF isFer segsSel).2 =
      decide (100 ≤ wholeOf (clampTemp (selTemp tmpC tmpF isFer))) := rfl

/-- The selected, clamped, rounded whole-degree value of a `dispTemp` call. -/
def selWhole (tmpC tmpF : ℚ) (isFer : ℤ) : ℤ :=
  wholeOf (clampTemp (selTemp tmpC tmpF isFer))

theorem clampTemp_nonneg (temp : ℚ) : 0 ≤ clampTemp temp := by
  rw [clampTemp]
  split
  · exact le_rfl
  · linarith

theorem clampTemp_of_nonneg {temp : ℚ} (h : 0 ≤ temp) : clampTemp temp = temp := by
  rw [clampTemp, if_neg (by linarith)]

theorem clampTemp_of_neg {temp : ℚ} (h : temp < 0) : clampTemp temp = 0 := by
  rw [clampTemp, if_pos h]

theorem scaledTenths_nonneg {temp : ℚ} (h : 0 ≤ temp) : 0 ≤ scaledTenths temp :=
  trunc_nonneg (fadd_nonneg (fmul_nonneg h (by norm_num)) (by norm_num))

theorem wholeOf_nonneg {temp : ℚ} (h : 0 ≤ temp) : 0 ≤ wholeOf temp := by
  rw [wholeOf]
  split
  · exact trunc_nonneg (fadd_nonneg h (by norm_num))
  · exact Int.tdiv_nonneg (scaledTenths_nonneg h) (by norm_num)

theorem selWhole_nonneg (tmpC tmpF : ℚ) (isFer : ℤ) : 0 ≤ selWhole tmpC tmpF isFer :=
  wholeOf_nonneg (clampTemp_nonneg _)

/-! ## Concrete pipeline evaluations -/

theorem scaledTenths_995 : scaledTenths (6550323/65536) = 1000 := by
  rw [scaledTenths, fmul_995_ten, fadd_9995_half]
  exact trunc_eq_of_nonneg (by norm_num) (by norm_num) (by norm_num)

theorem wholeOf_995 : wholeOf (6550323/65536) = 100 := by
  rw [wholeOf, if_neg (by norm_num), scaledTenths_995]
  decide

theorem scaledTenths_976 : scaledTenths (5117051/524288) = 98 := by
  rw [scaledTenths, fmul_976_ten, fadd_976_half]
  exact trunc_eq_of_nonneg (by norm_num) (by norm_num) (by norm_num)

theorem wholeOf_976 : wholeOf (5117051/524288) = 9 := by
  rw [wholeOf, if_neg (by norm_num), scaledTenths_976]
  decide

theorem scaledTenths_101 : scaledTenths 101 = 1010 := by
  rw [scaledTenths, fmul_101_ten, fadd_1010_half]
  exact trunc_eq_of_nonneg (by norm_num) (by norm_num) (by norm_num)

theorem wholeOf_101 : wholeOf 101 = 101 := by
  rw [wholeOf, if_pos (by norm_num), fadd_101_half]
  exact trunc_eq_of_nonneg (by norm_num) (by norm_num) (by norm_num)

theorem scaledTenths_zero : scaledTenths 0 = 0 := by
  rw [scaledTenths, fmul_zero_ten, fadd_zero_half]
  exact trunc_eq_of_nonneg (by norm_num) (by norm_num) (by norm_num)

theorem wholeOf_zero : wholeOf 0 = 0 := by
  rw [wholeOf, if_neg (by norm_num), scaledTenths_zero]
  decide

/-! ## Claim theorems -/

/-- C8: for every input word, `getTempLimit` with the exterior side
(`segsSel = 0`) returns `word & 0x7F` and with the interior side
(`segsSel = 1`) returns `(word >> 8) & 0x7F`; both results lie in `[0,127]`. -/
theorem C8_getTempLimit_decodes (w : ℕ) :
    getTempLimit ⟨w⟩ 0 = w &&& 0x7f ∧
    getTempLimit ⟨w⟩ 1 = (w >>> 8) &&& 0x7f ∧
    getTempLimit ⟨w⟩ 0 ≤ 127 ∧ getTempLimit ⟨w⟩ 1 ≤ 127 := by
  refine ⟨rfl, rfl, ?_, ?_⟩
  · exact Nat.and_le_right
  · exact Nat.and_le_right

theorem and_127_eq_of_le {a : ℕ} (h : a ≤ 127) : a &&& 127 = a := by
  rw [show (127:ℕ) = 2^7 - 1 by norm_num, Nat.and_pow_two_sub_one_eq_mod,
    Nat.mod_eq_of_lt (by omega)]

/-- C9: for all `a` and `b` in `[0,127]`, `dispTempLimit` writes exactly
`(b <<< 8) ||| a` to the LED output port: `a` in bits 0-6, `b` in bits 8-14,
and all other bits zero (the written word equals `256*b + a < 2^15`). -/
theorem C9_dispTempLimit_packs (led_p : GpoCore) (a b : ℕ)
    (ha : a ≤ 127) (hb : b ≤ 127) :
    (dispTempLimit led_p a b).ledOutput = (b <<< 8) ||| a ∧
    (dispTempLimit led_p a b).ledOutput = 256 * b + a ∧
    (dispTempLimit led_p a b).ledOutput < 2^15 := by
  have hout : (dispTempLimit led_p a b).ledOutput =
      (0 ||| (a &&& 127)) ||| ((b &&& 127) <<< 8) := rfl
  have hb256 : (b <<< 8) ||| a = 256 * b + a := by
    rw [Nat.shiftLeft_eq, Nat.mul_comm b (2^8),
      ← Nat.mul_add_lt_is_or (by omega) b]
  have hmain : (dispTempLimit led_p a b).ledOutput = (b <<< 8) ||| a := by
    rw [hout, and_127_eq_of_le ha, and_127_eq_of_le hb, Nat.zero_or,
      Nat.lor_comm]
  refine ⟨hmain, by rw [hmain, hb256], by rw [hmain, hb256]; omega⟩

/-- C9 witness: the packing theorem at the repository's own test values
`a = 0x12`, `b = 0x34`. -/
theorem C9_witness :
    (dispTempLimit ⟨0⟩ 18 52).ledOutput = (52 <<< 8) ||| 18 ∧
    (dispTempLimit ⟨0⟩ 18 52).ledOutput = 256 * 52 + 18 ∧
    (dispTempLimit ⟨0⟩ 18 52).ledOutput < 2^15 :=
  C9_dispTempLimit_packs ⟨0⟩ 18 52 (by norm_num) (by norm_num)

/-- C10: `dispDp` sets the decimal-point mask exactly per the four-row table:
both halves overflowed gives bit1|bit5, interior only bit2|bit5, exterior only
bit1|bit6, neither bit2|bit6. -/
theorem C10_dispDp_table (sseg_p : SsegCore) :
    (dispDp sseg_p true true).dp = (1 <<< 1) ||| (1 <<< 5) ∧
    (dispDp sseg_p true false).dp = (1 <<< 2) ||| (1 <<< 5) ∧
    (dispDp sseg_p false true).dp = (1 <<< 1) ||| (1 <<< 6) ∧
    (dispDp sseg_p false false).dp = (1 <<< 2) ||| (1 <<< 6) :=
  ⟨rfl, rfl, rfl, rfl⟩

theorem set_duty_duty_ite (pwm_p : PwmCore) (d : ℚ) (ch i : ℤ) :
    (pwm_p.set_duty d ch).duty i =
      if (0 ≤ ch ∧ ch < 8) ∧ i = ch then d else pwm_p.duty i := by
  rw [PwmCore.set_duty]
  by_cases hin : 0 ≤ ch ∧ ch < 8
  · rw [if_pos hin]
    by_cases hi : i = ch
    · rw [if_pos ⟨hin, hi⟩]
      simp [hi]
    · rw [if_neg (by tauto)]
      simp [hi]
  · rw [if_neg hin, if_neg (by tauto)]

/-- C4 counterexample: `setRGB` with `color = 1` (red) and `rgbPos = 1`
(interior) leaves channel 4 at duty 0 — it does not set channel 4 to 0.30 as
the claim states; the 0.30 duty goes to channel `color + 4 = 5`. -/
theorem C4_counterexample :
    (setRGB pwm0 1 1).duty 4 = 0 ∧ (setRGB pwm0 1 1).duty 4 ≠ 30/100 := by
  have h : (setRGB pwm0 1 1).duty 4 = 0 := by
    simp [setRGB, set_duty_duty_ite, pwm0]
  exact ⟨h, by rw [h]; norm_num⟩

/-- C4 amended: `setRGB(color=1, rgbPos=interior)` sets channel `5` (`= base 4
+ color 1`) to duty 0.30, sets channels 3 and 4 to duty 0.0, and leaves
channels 0-2 untouched. -/
theorem C4_amended (pwm_p : PwmCore) :
    (setRGB pwm_p 1 1).duty 5 = 30/100 ∧
    (setRGB pwm_p 1 1).duty 3 = 0 ∧
    (setRGB pwm_p 1 1).duty 4 = 0 ∧
    (setRGB pwm_p 1 1).duty 0 = pwm_p.duty 0 ∧
    (setRGB pwm_p 1 1).duty 1 = pwm_p.duty 1 ∧
    (setRGB pwm_p 1 1).duty 2 = pwm_p.duty 2 := by
  refine ⟨?_, ?_, ?_, ?_, ?_, ?_⟩ <;>
    simp [setRGB, set_duty_duty_ite]

/-- C7: the display writes and the return value of `dispTemp` depend only on
the selected temperature: in Fahrenheit mode (`isFer = 1`) the Celsius input
is irrelevant, and in Celsius mode (`isFer = 0`) the Fahrenheit input is
irrelevant — in particular the negative clamp acts on the selected value
only. -/
theorem C7_selected_only (sseg_p : SsegCore) (tmpC tmpC' tmpF tmpF' : ℚ)
    (segsSel : ℤ) :
    dispTemp sseg_p tmpC tmpF 1 segsSel = dispTemp sseg_p tmpC' tmpF 1 segsSel ∧
    dispTemp sseg_p tmpC tmpF 0 segsSel = dispTemp sseg_p tmpC tmpF' 0 segsSel := by
  constructor <;> simp [dispTemp, selTemp]

/-- C5: every call to `dispTemp` writes exactly its four assigned cells
`posAdj+0 .. posAdj+3`: the decimal-point mask is untouched, every cell
outside the half is untouched, and the value of each of the four own cells is
fully determined by the inputs (identical for any two initial display states,
so position 3 is never left at its prior value). -/
theorem C5_frame_effect (s1 s2 : SsegCore) (tmpC tmpF : ℚ) (isFer segsSel : ℤ) :
    (dispTemp s1 tmpC tmpF isFer segsSel).1.dp = s1.dp ∧
    (∀ i : ℤ, i < posAdjOf segsSel ∨ posAdjOf segsSel + 4 ≤ i →
      (dispTemp s1 tmpC tmpF isFer segsSel).1.digit i = s1.digit i) ∧
    (∀ j : ℤ, posAdjOf segsSel ≤ j → j < posAdjOf segsSel + 4 →
      (dispTemp s1 tmpC tmpF isFer segsSel).1.digit j =
        (dispTemp s2 tmpC tmpF isFer segsSel).1.digit j) := by
  refine ⟨dispTemp_dp s1 tmpC tmpF isFer segsSel, ?_, ?_⟩
  · intro i hi
    rw [dispTemp_digit, if_neg (by omega)]
  · intro j h1 h2
    rw [dispTemp_digit, dispTemp_digit, if_pos ⟨h1, h2⟩, if_pos ⟨h1, h2⟩]

/-- C5 witness: at a concrete call (right half, temperature 0) the mask and an
other-half cell are preserved and the own cell 3 is written independently of
the initial state. -/
theorem C5_witness :
    (dispTemp sseg0 0 0 0 0).1.dp = sseg0.dp ∧
    (dispTemp sseg0 0 0 0 0).1.digit 5 = sseg0.digit 5 ∧
    (dispTemp sseg0 0 0 0 0).1.digit 3 = (dispTemp sseg1 0 0 0 0).1.digit 3 := by
  obtain ⟨h1, h2, h3⟩ := C5_frame_effect sseg0 sseg1 0 0 0 0
  refine ⟨h1, h2 5 ?_, h3 3 ?_ ?_⟩
  · right
    norm_num [posAdjOf]
  · norm_num [posAdjOf]
  · norm_num [posAdjOf]

theorem h2s_of_tmod10 {x : ℤ} (h : 0 ≤ x) :
    ((x.tmod 10).emod 256).toNat = (x.tmod 10).toNat := by
  show ((x.tmod 10) % 256).toNat = (x.tmod 10).toNat
  rw [Int.emod_eq_of_lt (Int.tmod_nonneg 10 h)
    (lt_trans (Int.tmod_lt_of_pos x (by norm_num)) (by norm_num))]

theorem digitAt_zero (tmpC tmpF : ℚ) (isFer : ℤ) :
    digitAt tmpC tmpF isFer 0 = if isFer = 1 then 15 else 12 := by
  simp only [digitAt, if_pos rfl]
  split_ifs <;> decide

theorem digitAt_three_of_100 (tmpC tmpF : ℚ) (isFer : ℤ)
    (h : 100 ≤ selWhole tmpC tmpF isFer) :
    digitAt tmpC tmpF isFer 3 =
      (((selWhole tmpC tmpF isFer).tdiv 100).tmod 10).toNat := by
  have h' := h
  rw [selWhole] at h'
  simp only [digitAt]
  rw [if_neg (by norm_num), if_pos h', if_pos trivial, selWhole]
  exact h2s_of_tmod10 (Int.tdiv_nonneg (by linarith) (by norm_num))

theorem digitAt_two_of_100 (tmpC tmpF : ℚ) (isFer : ℤ)
    (h : 100 ≤ selWhole tmpC tmpF isFer) :
    digitAt tmpC tmpF isFer 2 =
      (((selWhole tmpC tmpF isFer).tdiv 10).tmod 10).toNat := by
  have h' := h
  rw [selWhole] at h'
  simp only [digitAt]
  rw [if_neg (by norm_num), if_pos h', if_neg (by norm_num), if_pos trivial, selWhole]
  exact h2s_of_tmod10 (Int.tdiv_nonneg (by linarith) (by norm_num))

theorem digitAt_one_of_100 (tmpC tmpF : ℚ) (isFer : ℤ)
    (h : 100 ≤ selWhole tmpC tmpF isFer) :
    digitAt tmpC tmpF isFer 1 = ((selWhole tmpC tmpF isFer).tmod 10).toNat := by
  have h' := h
  rw [selWhole] at h'
  simp only [digitAt]
  rw [if_neg (by norm_num), if_pos h', if_neg (by norm_num), if_neg (by norm_num),
    selWhole]
  exact h2s_of_tmod10 (by linarith)

theorem digitAt_two_of_not100 (tmpC tmpF : ℚ) (isFer : ℤ)
    (h : ¬ 100 ≤ selWhole tmpC tmpF isFer) :
    digitAt tmpC tmpF isFer 2 = ((selWhole tmpC tmpF isFer).tmod 10).toNat := by
  have h' := h
  rw [selWhole] at h'
  simp only [digitAt]
  rw [if_neg (by norm_num), if_neg h', if_neg (by norm_num), if_pos trivial, selWhole]
  exact h2s_of_tmod10 (wholeOf_nonneg (clampTemp_nonneg _))

theorem digitAt_one_of_not100 (tmpC tmpF : ℚ) (isFer : ℤ)
    (h : ¬ 100 ≤ selWhole tmpC tmpF isFer) :
    digitAt tmpC tmpF isFer 1 =
      ((scaledTenths (clampTemp (selTemp tmpC tmpF isFer))).tmod 10).toNat := by
  have h' := h
  rw [selWhole] at h'
  simp only [digitAt]
  rw [if_neg (by norm_num), if_neg h', if_neg (by norm_num), if_neg (by norm_num)]
  exact h2s_of_tmod10 (scaledTenths_nonneg (clampTemp_nonneg _))

theorem digitAt_three_of_mid (tmpC tmpF : ℚ) (isFer : ℤ)
    (h100 : ¬ 100 ≤ selWhole tmpC tmpF isFer)
    (h10 : 10 ≤ selWhole tmpC tmpF isFer) :
    digitAt tmpC tmpF isFer 3 =
      (((selWhole tmpC tmpF isFer).tdiv 10).tmod 10).toNat := by
  have h100' := h100
  have h10' := h10
  rw [selWhole] at h100' h10'
  simp only [digitAt]
  rw [if_neg (by norm_num), if_neg h100', if_pos trivial, if_pos h10', selWhole]
  exact h2s_of_tmod10 (Int.tdiv_nonneg (by linarith) (by norm_num))

theorem digitAt_three_of_small (tmpC tmpF : ℚ) (isFer : ℤ)
    (h100 : ¬ 100 ≤ selWhole tmpC tmpF isFer)
    (h10 : ¬ 10 ≤ selWhole tmpC tmpF isFer) :
    digitAt tmpC tmpF isFer 3 = 0xff := by
  have h100' := h100
  have h10' := h10
  rw [selWhole] at h100' h10'
  simp only [digitAt]
  rw [if_neg (by norm_num), if_neg h100', if_pos trivial, if_neg h10']

/-- C2: `dispTemp` returns `true` iff the rounded whole-degree value is at
least 100, and in that case it writes position 3 = hundreds digit, position 2
= tens digit, position 1 = ones digit of `whole` (three-digit display, no
tenths digit). -/
theorem C2_overflow_flag (sseg_p : SsegCore) (tmpC tmpF : ℚ) (isFer segsSel : ℤ) :
    ((dispTemp sseg_p tmpC tmpF isFer segsSel).2 = true ↔
      100 ≤ selWhole tmpC tmpF isFer) ∧
    (100 ≤ selWhole tmpC tmpF isFer →
      (dispTemp sseg_p tmpC tmpF isFer segsSel).1.digit (posAdjOf segsSel + 3) =
        (((selWhole tmpC tmpF isFer).tdiv 100).tmod 10).toNat ∧
      (dispTemp sseg_p tmpC tmpF isFer segsSel).1.digit (posAdjOf segsSel + 2) =
        (((selWhole tmpC tmpF isFer).tdiv 10).tmod 10).toNat ∧
      (dispTemp sseg_p tmpC tmpF isFer segsSel).1.digit (posAdjOf segsSel + 1) =
        ((selWhole tmpC tmpF isFer).tmod 10).toNat) := by
  constructor
  · rw [dispTemp_snd, selWhole]
    simp
  · intro h
    have e3 : posAdjOf segsSel + 3 - posAdjOf segsSel = 3 := by ring
    have e2 : posAdjOf segsSel + 2 - posAdjOf segsSel = 2 := by ring
    have e1 : posAdjOf segsSel + 1 - posAdjOf segsSel = 1 := by ring
    refine ⟨?_, ?_, ?_⟩
    · rw [dispTemp_digit, if_pos ⟨by omega, by omega⟩, e3, digitAt_three_of_100 _ _ _ h]
    · rw [dispTemp_digit, if_pos ⟨by omega, by omega⟩, e2, digitAt_two_of_100 _ _ _ h]
    · rw [dispTemp_digit, if_pos ⟨by omega, by omega⟩, e1, digitAt_one_of_100 _ _ _ h]

/-- C2 witness: at 101 degrees Celsius the flag is true and the three digits
are 1, 0, 1. -/
theorem C2_witness :
    (dispTemp sseg0 101 0 0 0).2 = true ∧
    (dispTemp sseg0 101 0 0 0).1.digit 3 = 1 ∧
    (dispTemp sseg0 101 0 0 0).1.digit 2 = 0 ∧
    (dispTemp sseg0 101 0 0 0).1.digit 1 = 1 := by
  have hsel : selWhole 101 0 0 = 101 := by
    rw [selWhole, selTemp, if_neg (by norm_num), clampTemp_of_nonneg (by norm_num),
      wholeOf_101]
  obtain ⟨hiff, hdig⟩ := C2_overflow_flag sseg0 101 0 0 0
  obtain ⟨h3, h2, h1⟩ := hdig (by rw [hsel]; norm_num)
  have hpa : posAdjOf 0 = 0 := rfl
  rw [hpa, hsel] at h3 h2 h1
  norm_num at h3 h2 h1
  refine ⟨hiff.2 (by rw [hsel]; norm_num), ?_, ?_, ?_⟩
  · rw [h3]; decide
  · rw [h2]; decide
  · rw [h1]; decide

/-! ## Concrete selected-temperature evaluations -/

theorem clamp_sel_995 :
    clampTemp (selTemp (6550323/65536) 0 0) = 6550323/65536 := by
  rw [selTemp, if_neg (by norm_num), clampTemp_of_nonneg (by norm_num)]

theorem selWhole_995 : selWhole (6550323/65536) 0 0 = 100 := by
  rw [selWhole, clamp_sel_995, wholeOf_995]

theorem clamp_sel_976 :
    clampTemp (selTemp (5117051/524288) 0 0) = 5117051/524288 := by
  rw [selTemp, if_neg (by norm_num), clampTemp_of_nonneg (by norm_num)]

theorem selWhole_976 : selWhole (5117051/524288) 0 0 = 9 := by
  rw [selWhole, clamp_sel_976, wholeOf_976]

theorem scaled_sel_976 :
    scaledTenths (clampTemp (selTemp (5117051/524288) 0 0)) = 98 := by
  rw [clamp_sel_976, scaledTenths_976]

/-- C1 counterexample: the binary32 value of `99.95` is nonnegative and
strictly below 100, yet `dispTemp` takes the three-digit branch (`whole`
rounds up to 100): position 3 receives the hundreds digit 1, not the tens
digit 0 that the claim dictates for `whole >= 10`, so the claim as stated is
false at this input. -/
theorem C1_counterexample :
    (0:ℚ) ≤ clampTemp (selTemp (6550323/65536) 0 0) ∧
    clampTemp (selTemp (6550323/65536) 0 0) < 100 ∧
    10 ≤ selWhole (6550323/65536) 0 0 ∧
    (dispTemp sseg0 (6550323/65536) 0 0 0).1.digit 3 = 1 ∧
    (((selWhole (6550323/65536) 0 0).tdiv 10).tmod 10).toNat = 0 ∧
    (dispTemp sseg0 (6550323/65536) 0 0 0).1.digit 3 ≠
      (((selWhole (6550323/65536) 0 0).tdiv 10).tmod 10).toNat := by
  have hd3 : (dispTemp sseg0 (6550323/65536) 0 0 0).1.digit 3 = 1 := by
    rw [dispTemp_digit, show posAdjOf 0 = 0 from rfl, if_pos (by norm_num),
      show (3:ℤ) - 0 = 3 by norm_num,
      digitAt_three_of_100 _ _ _ (by rw [selWhole_995]), selWhole_995]
    decide
  have htens : (((selWhole (6550323/65536) 0 0).tdiv 10).tmod 10).toNat = 0 := by
    rw [selWhole_995]
    decide
  refine ⟨?_, ?_, ?_, hd3, htens, ?_⟩
  · rw [clamp_sel_995]
    norm_num
  · rw [clamp_sel_995]
    norm_num
  · rw [selWhole_995]
    norm_num
  · rw [hd3, htens]
    norm_num

/-- C1 amended: for every selected temperature that is (after the clamp)
nonnegative, strictly below 100 *and whose computed whole-degree value is
below 100*, `dispTemp` writes position 2 = ones digit of `whole`, position 1 =
tenths digit (`scaledTenths mod 10`), position 3 = tens digit when
`whole >= 10` and the BLANK sentinel `0xFF` when `whole < 10`, the unit glyph
at position 0, and returns false. -/
theorem C1_amended (sseg_p : SsegCore) (tmpC tmpF : ℚ) (isFer segsSel : ℤ)
    (htemp : clampTemp (selTemp tmpC tmpF isFer) < 100)
    (hw : selWhole tmpC tmpF isFer < 100) :
    (dispTemp sseg_p tmpC tmpF isFer segsSel).1.digit (posAdjOf segsSel + 2) =
      ((selWhole tmpC tmpF isFer).tmod 10).toNat ∧
    (dispTemp sseg_p tmpC tmpF isFer segsSel).1.digit (posAdjOf segsSel + 1) =
      ((scaledTenths (clampTemp (selTemp tmpC tmpF isFer))).tmod 10).toNat ∧
    (10 ≤ selWhole tmpC tmpF isFer →
      (dispTemp sseg_p tmpC tmpF isFer segsSel).1.digit (posAdjOf segsSel + 3) =
        (((selWhole tmpC tmpF isFer).tdiv 10).tmod 10).toNat) ∧
    (selWhole tmpC tmpF isFer < 10 →
      (dispTemp sseg_p tmpC tmpF isFer segsSel).1.digit (posAdjOf segsSel + 3) =
        0xff) ∧
    (dispTemp sseg_p tmpC tmpF isFer segsSel).2 = false ∧
    (dispTemp sseg_p tmpC tmpF isFer segsSel).1.digit (posAdjOf segsSel + 0) =
      (if isFer = 1 then 15 else 12) := by
  have h100 : ¬ 100 ≤ selWhole tmpC tmpF isFer := by omega
  have e3 : posAdjOf segsSel + 3 - posAdjOf segsSel = 3 := by ring
  have e2 : posAdjOf segsSel + 2 - posAdjOf segsSel = 2 := by ring
  have e1 : posAdjOf segsSel + 1 - posAdjOf segsSel = 1 := by ring
  have e0 : posAdjOf segsSel + 0 - posAdjOf segsSel = 0 := by ring
  refine ⟨?_, ?_, ?_, ?_, ?_, ?_⟩
  · rw [dispTemp_digit, if_pos ⟨by omega, by omega⟩, e2,
      digitAt_two_of_not100 _ _ _ h100]
  · rw [dispTemp_digit, if_pos ⟨by omega, by omega⟩, e1,
      digitAt_one_of_not100 _ _ _ h100]
  · intro h10
    rw [dispTemp_digit, if_pos ⟨by omega, by omega⟩, e3,
      digitAt_three_of_mid _ _ _ h100 h10]
  · intro h10
    rw [dispTemp_digit, if_pos ⟨by omega, by omega⟩, e3,
      digitAt_three_of_small _ _ _ h100 (by omega)]
  · rw [dispTemp_snd, ← selWhole]
    exact decide_eq_false h100
  · rw [dispTemp_digit, if_pos ⟨by omega, by omega⟩, e0, digitAt_zero]

/-- C1 witness: at the binary32 value of `9.76` in Celsius mode on the right
half the amended claim yields position 3 = BLANK, position 2 = 9,
position 1 = 8 (rounded tenths), position 0 = the hex-C glyph, return false. -/
theorem C1_witness :
    (dispTemp sseg0 (5117051/524288) 0 0 0).1.digit 3 = 0xff ∧
    (dispTemp sseg0 (5117051/524288) 0 0 0).1.digit 2 = 9 ∧
    (dispTemp sseg0 (5117051/524288) 0 0 0).1.digit 1 = 8 ∧
    (dispTemp sseg0 (5117051/524288) 0 0 0).1.digit 0 = 12 ∧
    (dispTemp sseg0 (5117051/524288) 0 0 0).2 = false := by
  obtain ⟨h2, h1, _, h3, hret, h0⟩ :=
    C1_amended sseg0 (5117051/524288) 0 0 0
      (by rw [clamp_sel_976]; norm_num)
      (by rw [selWhole_976]; norm_num)
  rw [show posAdjOf 0 = 0 from rfl] at h2 h1 h3 h0
  norm_num at h2 h1 h3 h0
  refine ⟨?_, ?_, ?_, ?_, hret⟩
  · rw [h3 (by rw [selWhole_976]; norm_num)]
  · rw [h2, selWhole_976]
    decide
  · rw [h1, scaled_sel_976]
    decide
  · rw [h0]

/-- C3: under the single-precision model, `99.95f` (the binary32 value
`6550323/65536` of the literal `99.95`) yields `scaledTenths = 1000`, hence
`whole = 100`: `dispTemp` returns true and displays hundreds/tens/ones =
1/0/0 with the unit glyph at position 0 and no tenths digit. -/
theorem C3_boundary_9995 :
    fl (1999/20) = 6550323/65536 ∧
    scaledTenths (clampTemp (selTemp (6550323/65536) 0 0)) = 1000 ∧
    selWhole (6550323/65536) 0 0 = 100 ∧
    (dispTemp sseg0 (6550323/65536) 0 0 0).2 = true ∧
    (dispTemp sseg0 (6550323/65536) 0 0 0).1.digit 3 = 1 ∧
    (dispTemp sseg0 (6550323/65536) 0 0 0).1.digit 2 = 0 ∧
    (dispTemp sseg0 (6550323/65536) 0 0 0).1.digit 1 = 0 ∧
    (dispTemp sseg0 (6550323/65536) 0 0 0).1.digit 0 = 12 := by
  have h100 : 100 ≤ selWhole (6550323/65536) 0 0 := by
    rw [selWhole_995]
  refine ⟨fl_995, ?_, selWhole_995, ?_, ?_, ?_, ?_, ?_⟩
  · rw [clamp_sel_995, scaledTenths_995]
  · rw [dispTemp_snd, ← selWhole]
    exact decide_eq_true h100
  · rw [dispTemp_digit, show posAdjOf 0 = 0 from rfl, if_pos (by norm_num),
      show (3:ℤ) - 0 = 3 by norm_num, digitAt_three_of_100 _ _ _ h100,
      selWhole_995]
    decide
  · rw [dispTemp_digit, show posAdjOf 0 = 0 from rfl, if_pos (by norm_num),
      show (2:ℤ) - 0 = 2 by norm_num, digitAt_two_of_100 _ _ _ h100,
      selWhole_995]
    decide
  · rw [dispTemp_digit, show posAdjOf 0 = 0 from rfl, if_pos (by norm_num),
      show (1:ℤ) - 0 = 1 by norm_num, digitAt_one_of_100 _ _ _ h100,
      selWhole_995]
    decide
  · rw [dispTemp_digit, show posAdjOf 0 = 0 from rfl, if_pos (by norm_num),
      show (0:ℤ) - 0 = 0 by norm_num, digitAt_zero]
    norm_num

/-- C6: whenever the selected temperature is negative it is clamped to 0
before decomposition (so decomposition never sees a negative value), and the
display shows 0.0: position 3 = BLANK, position 2 = 0, position 1 = 0,
position 0 = the unit glyph, with return value false. -/
theorem C6_negative_clamp (sseg_p : SsegCore) (tmpC tmpF : ℚ) (isFer segsSel : ℤ)
    (h : selTemp tmpC tmpF isFer < 0) :
    clampTemp (selTemp tmpC tmpF isFer) = 0 ∧
    0 ≤ clampTemp (selTemp tmpC tmpF isFer) ∧
    (dispTemp sseg_p tmpC tmpF isFer segsSel).1.digit (posAdjOf segsSel + 3) =
      0xff ∧
    (dispTemp sseg_p tmpC tmpF isFer segsSel).1.digit (posAdjOf segsSel + 2) =
      0 ∧
    (dispTemp sseg_p tmpC tmpF isFer segsSel).1.digit (posAdjOf segsSel + 1) =
      0 ∧
    (dispTemp sseg_p tmpC tmpF isFer segsSel).1.digit (posAdjOf segsSel + 0) =
      (if isFer = 1 then 15 else 12) ∧
    (dispTemp sseg_p tmpC tmpF isFer segsSel).2 = false := by
  have hcl : clampTemp (selTemp tmpC tmpF isFer) = 0 := clampTemp_of_neg h
  have hw : selWhole tmpC tmpF isFer = 0 := by
    rw [selWhole, hcl, wholeOf_zero]
  have hst : scaledTenths (clampTemp (selTemp tmpC tmpF isFer)) = 0 := by
    rw [hcl, scaledTenths_zero]
  have h100 : ¬ 100 ≤ selWhole tmpC tmpF isFer := by omega
  have h10 : ¬ 10 ≤ selWhole tmpC tmpF isFer := by omega
  have e3 : posAdjOf segsSel + 3 - posAdjOf segsSel = 3 := by ring
  have e2 : posAdjOf segsSel + 2 - posAdjOf segsSel = 2 := by ring
  have e1 : posAdjOf segsSel + 1 - posAdjOf segsSel = 1 := by ring
  have e0 : posAdjOf segsSel + 0 - posAdjOf segsSel = 0 := by ring
  refine ⟨hcl, by rw [hcl], ?_, ?_, ?_, ?_, ?_⟩
  · rw [dispTemp_digit, if_pos ⟨by omega, by omega⟩, e3,
      digitAt_three_of_small _ _ _ h100 h10]
  · rw [dispTemp_digit, if_pos ⟨by omega, by omega⟩, e2,
      digitAt_two_of_not100 _ _ _ h100, hw]
    decide
  · rw [dispTemp_digit, if_pos ⟨by omega, by omega⟩, e1,
      digitAt_one_of_not100 _ _ _ h100, hst]
    decide
  · rw [dispTemp_digit, if_pos ⟨by omega, by omega⟩, e0, digitAt_zero]
  · rw [dispTemp_snd, ← selWhole]
    exact decide_eq_false h100

/-- C6 witness: the negative-clamp theorem at `-5.32` degrees Celsius on the
right half: the display reads `0.0 C` and the flag is false. -/
theorem C6_witness :
    (dispTemp sseg0 (-133/25) 0 0 0).1.digit 3 = 0xff ∧
    (dispTemp sseg0 (-133/25) 0 0 0).1.digit 2 = 0 ∧
    (dispTemp sseg0 (-133/25) 0 0 0).1.digit 1 = 0 ∧
    (dispTemp sseg0 (-133/25) 0 0 0).1.digit 0 = 12 ∧
    (dispTemp sseg0 (-133/25) 0 0 0).2 = false := by
  obtain ⟨_, _, h3, h2, h1, h0, hret⟩ :=
    C6_negative_clamp sseg0 (-133/25) 0 0 0
      (by rw [selTemp, if_neg (by norm_num)]; norm_num)
  rw [show posAdjOf 0 + 3 = 3 from rfl] at h3
  rw [show posAdjOf 0 + 2 = 2 from rfl] at h2
  rw [show posAdjOf 0 + 1 = 1 from rfl] at h1
  rw [show posAdjOf 0 + 0 = 0 from rfl, if_neg (by norm_num : ¬ (0:ℤ) = 1)] at h0
  exact ⟨h3, h2, h1, h0, hret⟩
